import Mathlib

/-!
Verification of `lifelines/statistics.py`: log-rank tests (two-sample,
multivariate, pairwise), Cox-model power and sample-size calculators, and the
`StatisticalResult` container.  Numeric quantities are embedded as rationals;
the external numeric primitives consumed by the module (standard-normal
quantile `z`/`ppf`, normal CDF, chi-squared survival function, matrix
pseudo-inverse, square root) are passed as explicit function parameters, with
the properties each theorem needs stated as hypotheses.
-/

namespace Lifelines

/-- Metadata values stored in a `StatisticalResult`'s keyword dictionary
(numbers, strings, booleans). -/
inductive MetaVal where
  | num (q : ℚ)
  | txt (s : String)
  | flag (b : Bool)
deriving DecidableEq

/-- Embedding of the `StatisticalResult` class: p-value array, test-statistic
array, optional list of names (group-label pairs for pairwise comparisons) and
the keyword metadata, in insertion order. -/
structure StatisticalResult where
  pValues : List ℚ
  stats : List ℚ
  name : Option (List (ℚ × ℚ))
  kwargs : List (String × MetaVal)
deriving DecidableEq

/-- Lookup in a keyword list with Python `dict` semantics: the last binding of
a key wins. -/
def kwLookup (l : List (String × MetaVal)) (k : String) : Option MetaVal :=
  (l.reverse.find? (fun p => p.1 == k)).map (fun p => p.2)

/-- Embedding of `StatisticalResult.__add__`: concatenates the p-value and
statistic arrays, concatenates the two name lists (`self.name + other.name`
raises a `TypeError` in Python whenever either side is `None`), merges the
keyword dictionaries with the right operand overriding, and re-runs the
constructor's length assertions. -/
def statAdd (a b : StatisticalResult) : Except String StatisticalResult :=
  match a.name, b.name with
  | some na, some nb =>
    let p := a.pValues ++ b.pValues
    let s := a.stats ++ b.stats
    let nm := na ++ nb
    if p.length = s.length then
      if nm.length = s.length then
        Except.ok { pValues := p, stats := s, name := some nm,
                    kwargs := a.kwargs ++ b.kwargs }
      else Except.error "AssertionError"
    else Except.error "AssertionError"
  | _, _ => Except.error "TypeError: unsupported operand types for +"

/-- Lexicographic order on name pairs, used by `summary`'s `sort_index`. -/
def pairLe (x y : ℚ × ℚ) : Prop := x.1 < y.1 ∨ (x.1 = y.1 ∧ x.2 ≤ y.2)

instance pairLeDec : DecidableRel pairLe := fun x y =>
  inferInstanceAs (Decidable (x.1 < y.1 ∨ (x.1 = y.1 ∧ x.2 ≤ y.2)))

instance summaryRowDec :
    DecidableRel (fun (a b : (ℚ × ℚ) × ℚ × ℚ) => pairLe a.1 b.1) := fun a b =>
  pairLeDec a.1 b.1

/-- Embedding of the `summary` property: rows `(index, test_statistic, p)`
zipped positionally and sorted by the name index when names are present. -/
def summary (r : StatisticalResult) : List (Option (ℚ × ℚ) × ℚ × ℚ) :=
  match r.name with
  | some nl =>
    (List.insertionSort (fun a b => pairLe a.1 b.1)
        (nl.zip (r.stats.zip r.pValues))).map (fun x => (some x.1, x.2))
  | none => (r.stats.zip r.pValues).map (fun p => ((none : Option (ℚ × ℚ)), p))

/-- Rows of raw samples `(duration, group, censorship flag)` obtained by
aligning the three input arrays positionally. -/
def zip3Rows (ds gs cs : List ℚ) : List (ℚ × ℚ × ℚ) := ds.zip (gs.zip cs)

/-- Sorted deduplicated labels, as `np.unique` returns them. -/
def uniqueSorted (l : List ℚ) : List ℚ := List.insertionSort (· ≤ ·) l.dedup

/-- Modelled from the spec: the survival-table builder
(`group_survival_table_from_events`, external to this module) indexes its
tables by the distinct event/censoring times in increasing order, truncated at
the horizon `t_0` (`-1` meaning all time). -/
def tableTimes (ds : List ℚ) (t0 : ℚ) : List ℚ :=
  uniqueSorted (if t0 = -1 then ds else ds.filter (fun d => decide (d ≤ t0)))

/-- Modelled from the spec: the samples contributing to the survival-table
cell at time `t` and group `g`. -/
def cell (rows : List (ℚ × ℚ × ℚ)) (t g : ℚ) : List (ℚ × ℚ × ℚ) :=
  rows.filter (fun r => decide (r.1 = t) && decide (r.2.1 = g))

/-- Modelled from the spec: `removed[t, g]`, the number of individuals of
group `g` leaving observation (event or censoring) exactly at time `t`. -/
def rmQ (rows : List (ℚ × ℚ × ℚ)) (t g : ℚ) : ℚ := ((cell rows t g).length : ℚ)

/-- Modelled from the spec: `observed[t, g]`, the observed-event count at time
`t` in group `g` (the sum of the censorship flags of that cell). -/
def obsQ (rows : List (ℚ × ℚ × ℚ)) (t g : ℚ) : ℚ :=
  ((cell rows t g).map (fun r => r.2.2)).sum

/-- `N_j = obs.sum(0)`: total observed events in group `g` over the table. -/
def colEvents (rows : List (ℚ × ℚ × ℚ)) (ts : List ℚ) (g : ℚ) : ℚ :=
  (ts.map (fun t => obsQ rows t g)).sum

/-- `n_ij`: the at-risk count of group `g` entering the step at time `t`,
i.e. the group's total removals minus the one-step-lagged cumulative removals
(equivalently, removals at times `≥ t` of the table index). -/
def atRiskG (rows : List (ℚ × ℚ × ℚ)) (ts : List ℚ) (t g : ℚ) : ℚ :=
  ((ts.filter (fun u => decide (t ≤ u))).map (fun u => rmQ rows u g)).sum

/-- `d_i = obs.sum(1)`: observed events at time `t` across all group
columns. -/
def dAll (rows : List (ℚ × ℚ × ℚ)) (ug : List ℚ) (t : ℚ) : ℚ :=
  (ug.map (fun g => obsQ rows t g)).sum

/-- `n_i`: total at-risk count entering the step at time `t`, with the same
one-step lag over all group columns. -/
def nAll (rows : List (ℚ × ℚ × ℚ)) (ts ug : List ℚ) (t : ℚ) : ℚ :=
  ((ts.filter (fun u => decide (t ≤ u))).map
      (fun u => (ug.map (fun g => rmQ rows u g)).sum)).sum

/-- `ev = n_ij.mul(d_i / n_i, axis=index).sum(0)`: the null-hypothesis
expected events of group `g`, accumulated over time steps. -/
def expectedG (rows : List (ℚ × ℚ × ℚ)) (ts ug : List ℚ) (g : ℚ) : ℚ :=
  (ts.map (fun t =>
      atRiskG rows ts t g * (dAll rows ug t / nAll rows ts ug t))).sum

/-- `Z_j = N_j - ev`: observed minus expected for group `g`. -/
def Zg (rows : List (ℚ × ℚ × ℚ)) (ts ug : List ℚ) (g : ℚ) : ℚ :=
  colEvents rows ts g - expectedG rows ts ug g

/-- The observed-minus-expected vector over the ordered unique groups. -/
def Zvec (rows : List (ℚ × ℚ × ℚ)) (ts ug : List ℚ) : List ℚ :=
  ug.map (Zg rows ts ug)

/-- The variance ratio `(n_i - d_i) / (n_i - 1)` after the
`replace([inf, nan], 1)` step: the float expression is non-finite exactly when
the denominator vanishes, i.e. when `n_i = 1`. -/
def safeRatio (n d : ℚ) : ℚ := if n = 1 then 1 else (n - d) / (n - 1)

/-- Per-step variance weight
`factor = ratio * d_i / n_i ** 2` of the covariance assembly. -/
def factorQ (rows : List (ℚ × ℚ × ℚ)) (ts ug : List ℚ) (t : ℚ) : ℚ :=
  safeRatio (nAll rows ts ug t) (dAll rows ug t) * dAll rows ug t /
    (nAll rows ts ug t) ^ 2

/-- Column `i` of the augmented at-risk table `n_ij` (group columns first,
then the appended total column `n_i`). -/
def colFun (rows : List (ℚ × ℚ × ℚ)) (ts ug : List ℚ) (i : ℕ) (t : ℚ) : ℚ :=
  if i < ug.length then atRiskG rows ts t (ug.getD i 0)
  else nAll rows ts ug t

/-- Entry `(i, j)` of `V = -np.dot(V_.T, V_)`: the scaled table contracted
with itself over time (the two `sqrt(factor)` scalings multiply back to
`factor`). -/
def Vfull (rows : List (ℚ × ℚ × ℚ)) (ts ug : List ℚ) (i j : ℕ) : ℚ :=
  -(ts.map (fun t =>
      colFun rows ts ug i t * colFun rows ts ug j t * factorQ rows ts ug t)).sum

/-- `V` after the diagonal correction `V[ix, ix] -= V[-1, ix]` (the last row
is the appended total column). -/
def Vcorr (rows : List (ℚ × ℚ × ℚ)) (ts ug : List ℚ) (i j : ℕ) : ℚ :=
  Vfull rows ts ug i j -
    (if i = j ∧ i < ug.length then Vfull rows ts ug ug.length j else 0)

/-- The doubly reduced matrix `V[:-1, :-1][:-1, :-1]` fed to the
pseudo-inverse: the total column is dropped first, then the last group. -/
def Vred (rows : List (ℚ × ℚ × ℚ)) (ts ug : List ℚ) : List (List ℚ) :=
  (List.range (ug.length - 1)).map (fun i =>
    (List.range (ug.length - 1)).map (fun j => Vcorr rows ts ug i j))

/-- Dot product of two vectors represented as lists. -/
def dotQ (a b : List ℚ) : ℚ := ((a.zip b).map (fun p => p.1 * p.2)).sum

/-- Matrix-vector product for list-of-rows matrices. -/
def matVec (m : List (List ℚ)) (v : List ℚ) : List ℚ :=
  m.map (fun row => dotQ row v)

/-- The quadratic form `U = Z[:-1] . pinv(V[:-1, :-1]) . Z[:-1]`. -/
def quadU (pinv : List (List ℚ) → List (List ℚ))
    (rows : List (ℚ × ℚ × ℚ)) (ts ug : List ℚ) : ℚ :=
  dotQ ((Zvec rows ts ug).take (ug.length - 1))
    (matVec (pinv (Vred rows ts ug)) ((Zvec rows ts ug).take (ug.length - 1)))

/-- Embedding of `chisq_test`: returns the significance decision made at the
given `alpha` together with the chi-squared upper-tail p-value. -/
def chisq_test (chi2sf : ℚ → ℤ → ℚ) (U : ℚ) (df : ℤ) (alpha : ℚ) :
    Option Bool × ℚ :=
  let p := chi2sf U df
  if p < 1 - alpha then (some true, p) else (none, p)

/-- Embedding of `multivariate_logrank_test`.  Validation order follows the
source: the `alpha` range check, the length assertion against the censorship
array, the reshape of the group labels, then the engine computation guarded by
the internal `Sum is not zero.` assertion on `Z`. -/
def multivariate_logrank_test (pinv : List (List ℚ) → List (List ℚ))
    (chi2sf : ℚ → ℤ → ℚ) (durations groups : List ℚ)
    (censorship : Option (List ℚ)) (alpha t0 : ℚ)
    (name : Option (List (ℚ × ℚ))) (kw : List (String × MetaVal)) :
    Except String StatisticalResult :=
  if ¬ (0 < alpha ∧ alpha ≤ 1) then
    Except.error "alpha parameter must be between 0 and 1."
  else if (censorship.getD (List.replicate durations.length 1)).length ≠
      durations.length then
    Except.error "inputs must be of the same length."
  else if groups.length ≠ durations.length then
    Except.error "ValueError: cannot reshape"
  else if ¬ (|(Zvec
        (zip3Rows durations groups
          (censorship.getD (List.replicate durations.length 1)))
        (tableTimes durations t0) (uniqueSorted groups)).sum| <
      1 / 10000000) then
    Except.error "Sum is not zero."
  else
    Except.ok
      { pValues := [(chisq_test chi2sf
            (quadU pinv
              (zip3Rows durations groups
                (censorship.getD (List.replicate durations.length 1)))
              (tableTimes durations t0) (uniqueSorted groups))
            (((uniqueSorted groups).length : ℤ) - 1) alpha).2],
        stats := [quadU pinv
            (zip3Rows durations groups
              (censorship.getD (List.replicate durations.length 1)))
            (tableTimes durations t0) (uniqueSorted groups)],
        name := name,
        kwargs := [("t_0", MetaVal.num t0), ("alpha", MetaVal.num alpha),
                   ("null_distribution", MetaVal.txt "chi squared"),
                   ("df", MetaVal.num (((uniqueSorted groups).length : ℚ) - 1))]
            ++ kw }

/-- Embedding of `logrank_test`: default the censorship arrays to all-observed,
concatenate the two samples with implicit group labels 0 (first population)
and 1 (second population), and delegate to the multivariate engine. -/
def logrank_test (pinv : List (List ℚ) → List (List ℚ))
    (chi2sf : ℚ → ℤ → ℚ) (dA dB : List ℚ) (cA cB : Option (List ℚ))
    (alpha t0 : ℚ) (name : Option (List (ℚ × ℚ)))
    (kw : List (String × MetaVal)) : Except String StatisticalResult :=
  multivariate_logrank_test pinv chi2sf (dA ++ dB)
    (List.replicate dA.length 0 ++ List.replicate dB.length 1)
    (some (cA.getD (List.replicate dA.length 1) ++
           cB.getD (List.replicate dB.length 1)))
    alpha t0 name kw

/-- Spec-side counterpart of the two-sample wrapper, written from the spec's
words: `multivariate_logrank_test` applied to the concatenated durations and
censorship (all-observed where omitted) with group label 0 for every
A-individual and 1 for every B-individual. -/
def logrank_test_spec (pinv : List (List ℚ) → List (List ℚ))
    (chi2sf : ℚ → ℤ → ℚ) (dA dB : List ℚ) (cA cB : Option (List ℚ))
    (alpha t0 : ℚ) (name : Option (List (ℚ × ℚ)))
    (kw : List (String × MetaVal)) : Except String StatisticalResult :=
  multivariate_logrank_test pinv chi2sf (dA ++ dB)
    (List.replicate dA.length 0 ++ List.replicate dB.length 1)
    (some (cA.getD (List.replicate dA.length 1) ++
           cB.getD (List.replicate dB.length 1)))
    alpha t0 name kw

/-- A duration argument as Python sees it: a NumPy array (which has a `shape`
attribute) or a plain list (which does not). -/
inductive PyArr where
  | ndarray (l : List ℚ)
  | pylist (l : List ℚ)
deriving DecidableEq

/-- Reading `.shape[0]` on the raw argument: an `AttributeError` for a plain
Python list. -/
def pyShape : PyArr → Except String ℕ
  | PyArr.ndarray l => Except.ok l.length
  | PyArr.pylist _ =>
    Except.error "AttributeError: list object has no attribute shape"

/-- `np.asarray` on either representation. -/
def pyList : PyArr → List ℚ
  | PyArr.ndarray l => l
  | PyArr.pylist l => l

/-- Boolean-mask selection `xs.loc[groups == g]`. -/
def selectBy (xs gs : List ℚ) (g : ℚ) : List ℚ :=
  ((xs.zip gs).filter (fun p => decide (p.2 = g))).map (fun p => p.1)

/-- `itertools.combinations` of a label list, pairs in iteration order. -/
def pairsOf : List ℚ → List (ℚ × ℚ)
  | [] => []
  | x :: xs => xs.map (fun y => (x, y)) ++ pairsOf xs

/-- The accumulator `StatisticalResult([], [], [])` the pairwise loop starts
from. -/
def emptyResult : StatisticalResult :=
  { pValues := [], stats := [], name := some [], kwargs := [] }

/-- One iteration of the pairwise loop: test the pair of group labels `pr`
with `logrank_test` at the (possibly Bonferroni-adjusted) significance level
`alphaSub`, tagging the sub-result with the pair as its name and the
`use_bonferroni` metadata flag, and merge it into the accumulator with `+`. -/
def pairStep (pinv : List (List ℚ) → List (List ℚ))
    (chi2sf : ℚ → ℤ → ℚ) (ds gs cs : List ℚ) (alphaSub t0 : ℚ)
    (bonferroni : Bool) (kw : List (String × MetaVal))
    (acc : StatisticalResult) (pr : ℚ × ℚ) : Except String StatisticalResult :=
  (logrank_test pinv chi2sf (selectBy ds gs pr.1) (selectBy ds gs pr.2)
      (some (selectBy cs gs pr.1)) (some (selectBy cs gs pr.2)) alphaSub t0
      (some [(pr.1, pr.2)])
      (("use_bonferroni", MetaVal.flag bonferroni) :: kw)).bind
    (fun sub => statAdd acc sub)

/-- The pairwise loop over all unordered pairs of distinct group labels. -/
def pairwiseFold (pinv : List (List ℚ) → List (List ℚ))
    (chi2sf : ℚ → ℤ → ℚ) (ds gs cs : List ℚ) (alphaSub t0 : ℚ)
    (bonferroni : Bool) (kw : List (String × MetaVal))
    (prs : List (ℚ × ℚ)) : Except String StatisticalResult :=
  prs.foldlM (pairStep pinv chi2sf ds gs cs alphaSub t0 bonferroni kw)
    emptyResult

/-- The censorship default of the pairwise wrapper: when omitted, the raw
duration argument's `.shape` is read (before any array conversion) to build
the all-observed vector. -/
def pairwiseCens (durations : PyArr) :
    Option (List ℚ) → Except String (List ℚ)
  | none => (pyShape durations).map (fun n => List.replicate n (1 : ℚ))
  | some c => Except.ok c

/-- Embedding of `pairwise_logrank_test`: when censorship is omitted the raw
duration argument's `.shape` is read before any conversion; the three arrays
are then reshaped to the common length (a fatal error on mismatch); with the
Bonferroni flag on, `alpha = 1 - (1 - alpha) / m` with `m = 0.5*k*(k-1)`
raises a `ZeroDivisionError` whenever fewer than 2 unique groups make `m`
zero; then every unordered pair of groups is tested and aggregated. -/
def pairwise_logrank_test (pinv : List (List ℚ) → List (List ℚ))
    (chi2sf : ℚ → ℤ → ℚ) (durations : PyArr) (groups : List ℚ)
    (censorship : Option (List ℚ)) (alpha t0 : ℚ) (bonferroni : Bool)
    (kw : List (String × MetaVal)) : Except String StatisticalResult :=
  (pairwiseCens durations censorship).bind (fun cens =>
    if groups.length ≠ (pyList durations).length then
      Except.error "ValueError: cannot reshape"
    else if cens.length ≠ (pyList durations).length then
      Except.error "ValueError: cannot reshape"
    else if bonferroni = true ∧
        ((uniqueSorted groups).length : ℚ) *
          (((uniqueSorted groups).length : ℚ) - 1) / 2 = 0 then
      Except.error "ZeroDivisionError: float division by zero"
    else
      pairwiseFold pinv chi2sf (pyList durations) groups cens
        (if bonferroni then
          1 - (1 - alpha) /
            (((uniqueSorted groups).length : ℚ) *
              (((uniqueSorted groups).length : ℚ) - 1) / 2)
         else alpha)
        t0 bonferroni kw (pairsOf (uniqueSorted groups)))

/-- The intermediate quantity
`m = 1/ratio * ((ratio*HR + 1)/(HR - 1))**2 * (z(1 - alpha/2) + z(power))**2`
of `sample_size_necessary_under_cph`. -/
def cphM (z : ℚ → ℚ) (power ratio hr alpha : ℚ) : ℚ :=
  1 / ratio * ((ratio * hr + 1) / (hr - 1)) ^ 2 *
    (z (1 - alpha / 2) + z power) ^ 2

/-- Embedding of `sample_size_necessary_under_cph`: the two ceiling-rounded
arm sizes derived from `m`. -/
def sample_size_necessary_under_cph (z : ℚ → ℚ)
    (power ratio p_exp p_con hr alpha : ℚ) : ℤ × ℤ :=
  (⌈cphM z power ratio hr alpha * ratio / (ratio * p_exp + p_con)⌉,
   ⌈cphM z power ratio hr alpha / (ratio * p_exp + p_con)⌉)

/-- The argument handed to the normal CDF inside `power_under_cph`:
`sqrt(k*m) * |HR - 1| / (k*HR + 1) - z(1 - alpha/2)` with `k = n_exp/n_con`
and `m = n_exp*p_exp + n_con*p_con`. -/
def powerArg (sq z : ℚ → ℚ) (n_exp n_con p_exp p_con hr alpha : ℚ) : ℚ :=
  sq (n_exp / n_con * (n_exp * p_exp + n_con * p_con)) * |hr - 1| /
      (n_exp / n_con * hr + 1) -
    z (1 - alpha / 2)

/-- Embedding of `power_under_cph`. -/
def power_under_cph (sq z cdf : ℚ → ℚ)
    (n_exp n_con p_exp p_con hr alpha : ℚ) : ℚ :=
  cdf (powerArg sq z n_exp n_con p_exp p_con hr alpha)

/-- Extended values of IEEE float arithmetic relevant to the variance-ratio
expression: a finite rational, the two infinities, or NaN. -/
inductive ExtQ where
  | fin (q : ℚ)
  | posInf
  | negInf
  | nan
deriving DecidableEq

/-- Float division of exact rationals: finite quotient for a nonzero
denominator, otherwise a signed infinity or NaN according to the numerator. -/
def divE (a b : ℚ) : ExtQ :=
  if b = 0 then
    (if a = 0 then ExtQ.nan else if 0 < a then ExtQ.posInf else ExtQ.negInf)
  else ExtQ.fin (a / b)

/-- The pandas `.replace([np.inf, np.nan], 1)` step applied to the ratio. -/
def replaceInfNan : ExtQ → ExtQ
  | ExtQ.posInf => ExtQ.fin 1
  | ExtQ.nan => ExtQ.fin 1
  | x => x

/-- Whether an `Except` computation completed without raising. -/
def exceptIsOk : Except String StatisticalResult → Bool
  | Except.ok _ => true
  | Except.error _ => false

/-- Well-formedness maintained by the pairwise accumulator: equal-length
arrays and a name list matching them. -/
def wfAcc (r : StatisticalResult) : Prop :=
  r.pValues.length = r.stats.length ∧
    ∃ nl, r.name = some nl ∧ nl.length = r.stats.length

/-- Concrete stand-in for the external matrix pseudo-inverse, used to
instantiate theorems at concrete inputs. -/
def pinv0 : List (List ℚ) → List (List ℚ) := fun m => m

/-- Concrete stand-in for the external chi-squared survival function. -/
def chi2sf0 : ℚ → ℤ → ℚ := fun _ _ => 1 / 2

/-- Concrete stand-in for the standard-normal quantile function, correct to
four decimal places at the two points the sample-size scenario consults. -/
def zWit : ℚ → ℚ := fun q =>
  if q = 39 / 40 then 49 / 25 else if q = 4 / 5 then 526 / 625 else 0

/-- Concrete stand-in for the square root: nonnegative like the real one. -/
def sqrtAbs : ℚ → ℚ := fun q => |q|

/-- Concrete monotone stand-in for the standard-normal CDF: clamped linear
ramp on `[-3, 3]`, with values in `[0, 1]`. -/
def cdfLin : ℚ → ℚ := fun x => max 0 (min 1 ((x + 3) / 6))

/-- Concrete stand-in for the standard-normal quantile inside
`power_under_cph` (the constant shift cancels in comparisons). -/
def ppfZero : ℚ → ℚ := fun _ => 0

/-- A `StatisticalResult` without names, as `logrank_test` produces. -/
def srNoName : StatisticalResult :=
  { pValues := [1 / 2], stats := [1], name := none, kwargs := [] }

/-- A one-row named `StatisticalResult` used to instantiate the combination
theorems. -/
def srNamedA : StatisticalResult :=
  { pValues := [1 / 2], stats := [1], name := some [(0, 1)],
    kwargs := [("alpha", MetaVal.num (19 / 20))] }

/-- A second one-row named `StatisticalResult`, with a colliding metadata
key. -/
def srNamedB : StatisticalResult :=
  { pValues := [1 / 4], stats := [2], name := some [(0, 2)],
    kwargs := [("alpha", MetaVal.num (9 / 10)), ("df", MetaVal.num 1)] }

lemma sum_map_zero {α : Type} (l : List α) : (l.map (fun _ => (0 : ℚ))).sum = 0 := by
  induction l with
  | nil => simp
  | cons x xs ih => simp [ih]

lemma sum_map_add {α : Type} (l : List α) (f g : α → ℚ) :
    (l.map (fun x => f x + g x)).sum = (l.map f).sum + (l.map g).sum := by
  induction l with
  | nil => simp
  | cons x xs ih => simp [ih]; ring

lemma sum_map_sub {α : Type} (l : List α) (f g : α → ℚ) :
    (l.map (fun x => f x - g x)).sum = (l.map f).sum - (l.map g).sum := by
  induction l with
  | nil => simp
  | cons x xs ih => simp [ih]; ring

lemma sum_map_mul_right {α : Type} (l : List α) (f : α → ℚ) (c : ℚ) :
    (l.map (fun x => f x * c)).sum = (l.map f).sum * c := by
  induction l with
  | nil => simp
  | cons x xs ih => simp [ih]; ring

lemma sum_map_comm {α β : Type} (G : List α) (T : List β) (f : α → β → ℚ) :
    (G.map (fun g => (T.map (fun t => f g t)).sum)).sum =
      (T.map (fun t => (G.map (fun g => f g t)).sum)).sum := by
  induction G with
  | nil => simp [sum_map_zero]
  | cons x xs ih =>
    simp only [List.map_cons, List.sum_cons, ih, sum_map_add]

lemma sum_map_nonneg {α : Type} (l : List α) (f : α → ℚ)
    (h : ∀ x ∈ l, 0 ≤ f x) : 0 ≤ (l.map f).sum := by
  induction l with
  | nil => simp
  | cons x xs ih =>
    simp only [List.map_cons, List.sum_cons]
    have h1 := h x (List.mem_cons_self x xs)
    have h2 := ih (fun y hy => h y (List.mem_cons_of_mem x hy))
    linarith

lemma map_eq_zero_of_sum_eq_zero {α : Type} (l : List α) (f : α → ℚ)
    (h0 : ∀ x ∈ l, 0 ≤ f x) (hs : (l.map f).sum = 0) :
    ∀ x ∈ l, f x = 0 := by
  induction l with
  | nil => intro x hx; cases hx
  | cons y ys ih =>
    intro x hx
    simp only [List.map_cons, List.sum_cons] at hs
    have hy0 : 0 ≤ f y := h0 y (List.mem_cons_self y ys)
    have hys0 : ∀ z ∈ ys, 0 ≤ f z := fun z hz => h0 z (List.mem_cons_of_mem y hz)
    have hsum0 : 0 ≤ (ys.map f).sum := sum_map_nonneg ys f hys0
    have hfy : f y = 0 := by linarith
    have hrest : (ys.map f).sum = 0 := by linarith
    rcases List.mem_cons.mp hx with h | h
    · exact h ▸ hfy
    · exact ih hys0 hrest x h

lemma mem_uniqueSorted {a : ℚ} {l : List ℚ} : a ∈ uniqueSorted l ↔ a ∈ l := by
  unfold uniqueSorted
  rw [(List.perm_insertionSort (· ≤ ·) l.dedup).mem_iff, List.mem_dedup]

lemma rmQ_nonneg (rows : List (ℚ × ℚ × ℚ)) (t g : ℚ) : 0 ≤ rmQ rows t g := by
  unfold rmQ; positivity

lemma atRisk_sum_eq_nAll (rows : List (ℚ × ℚ × ℚ)) (ts ug : List ℚ) (t : ℚ) :
    (ug.map (fun g => atRiskG rows ts t g)).sum = nAll rows ts ug t := by
  unfold atRiskG nAll
  exact sum_map_comm ug (ts.filter (fun u => decide (t ≤ u)))
    (fun g u => rmQ rows u g)

lemma dAll_eq_zero_of_nAll_eq_zero (rows : List (ℚ × ℚ × ℚ)) (ts ug : List ℚ)
    (t : ℚ) (ht : t ∈ ts) (h : nAll rows ts ug t = 0) : dAll rows ug t = 0 := by
  have htf : t ∈ ts.filter (fun u => decide (t ≤ u)) :=
    List.mem_filter.mpr ⟨ht, by simp⟩
  have hinner : ∀ u ∈ ts.filter (fun u => decide (t ≤ u)),
      0 ≤ (ug.map (fun g => rmQ rows u g)).sum := by
    intro u _
    exact sum_map_nonneg ug _ (fun g _ => rmQ_nonneg rows u g)
  have hrow : (ug.map (fun g => rmQ rows t g)).sum = 0 :=
    map_eq_zero_of_sum_eq_zero _ _ hinner h t htf
  have hcellzero : ∀ g ∈ ug, rmQ rows t g = 0 :=
    map_eq_zero_of_sum_eq_zero ug _ (fun g _ => rmQ_nonneg rows t g) hrow
  unfold dAll
  have : ∀ g ∈ ug, obsQ rows t g = 0 := by
    intro g hg
    have hc := hcellzero g hg
    unfold rmQ at hc
    have hlen : (cell rows t g).length = 0 := by exact_mod_cast hc
    have hnil : cell rows t g = [] := List.length_eq_zero.mp hlen
    unfold obsQ
    rw [hnil]
    simp
  calc (ug.map (fun g => obsQ rows t g)).sum
      = (ug.map (fun _ => (0 : ℚ))).sum := by
        apply congrArg
        exact List.map_congr_left this
    _ = 0 := sum_map_zero ug

lemma expected_term_eq_dAll (rows : List (ℚ × ℚ × ℚ)) (ts ug : List ℚ)
    (t : ℚ) (ht : t ∈ ts) :
    (ug.map (fun g =>
        atRiskG rows ts t g * (dAll rows ug t / nAll rows ts ug t))).sum =
      dAll rows ug t := by
  rw [sum_map_mul_right ug (fun g => atRiskG rows ts t g)
        (dAll rows ug t / nAll rows ts ug t),
      atRisk_sum_eq_nAll]
  by_cases h : nAll rows ts ug t = 0
  · rw [h, dAll_eq_zero_of_nAll_eq_zero rows ts ug t ht h]
    simp
  · rw [mul_comm]
    exact div_mul_cancel₀ _ h

/-- The observed-minus-expected vector sums to zero exactly, for every input:
the group columns of the at-risk table sum to the total column, so the
expectations absorb exactly the observed events at every step. -/
lemma Zvec_sum_eq_zero (rows : List (ℚ × ℚ × ℚ)) (ts ug : List ℚ) :
    (Zvec rows ts ug).sum = 0 := by
  unfold Zvec Zg
  rw [sum_map_sub ug (fun g => colEvents rows ts g)
        (fun g => expectedG rows ts ug g)]
  have hN : (ug.map (fun g => colEvents rows ts g)).sum =
      (ts.map (fun t => dAll rows ug t)).sum := by
    unfold colEvents dAll
    exact sum_map_comm ug ts (fun g t => obsQ rows t g)
  have hE : (ug.map (fun g => expectedG rows ts ug g)).sum =
      (ts.map (fun t => dAll rows ug t)).sum := by
    unfold expectedG
    rw [sum_map_comm ug ts (fun g t =>
          atRiskG rows ts t g * (dAll rows ug t / nAll rows ts ug t))]
    apply congrArg
    apply List.map_congr_left
    intro t ht
    exact expected_term_eq_dAll rows ts ug t ht
  rw [hN, hE, sub_self]

lemma mem_ds_of_mem_tableTimes {ds : List ℚ} {t0 t : ℚ}
    (ht : t ∈ tableTimes ds t0) : t ∈ ds := by
  unfold tableTimes at ht
  rw [mem_uniqueSorted] at ht
  by_cases h : t0 = -1
  · rwa [if_pos h] at ht
  · rw [if_neg h] at ht
    exact (List.mem_filter.mp ht).1

lemma exists_row_at_time (ds gs cs : List ℚ) (t0 : ℚ)
    (hg : gs.length = ds.length) (hc : cs.length = ds.length)
    {t : ℚ} (ht : t ∈ tableTimes ds t0) :
    ∃ r ∈ zip3Rows ds gs cs, r.1 = t := by
  have htd : t ∈ ds := mem_ds_of_mem_tableTimes ht
  have hlen : ds.length ≤ (gs.zip cs).length := by
    rw [List.length_zip, hg, hc]
    simp
  have hmap : (zip3Rows ds gs cs).map Prod.fst = ds :=
    List.map_fst_zip ds (gs.zip cs) hlen
  rw [← hmap] at htd
  obtain ⟨r, hr, hrt⟩ := List.mem_map.mp htd
  exact ⟨r, hr, hrt⟩

lemma row_group_mem {ds gs cs : List ℚ} {r : ℚ × ℚ × ℚ}
    (hr : r ∈ zip3Rows ds gs cs) : r.2.1 ∈ gs := by
  have h1 := List.of_mem_zip hr
  exact (List.of_mem_zip h1.2).1

lemma row_flag_mem {ds gs cs : List ℚ} {r : ℚ × ℚ × ℚ}
    (hr : r ∈ zip3Rows ds gs cs) : r.2.2 ∈ cs := by
  have h1 := List.of_mem_zip hr
  exact (List.of_mem_zip h1.2).2

lemma rowsum_le_nAll (rows : List (ℚ × ℚ × ℚ)) (ts ug : List ℚ) {t : ℚ}
    (ht : t ∈ ts) :
    (ug.map (fun g => rmQ rows t g)).sum ≤ nAll rows ts ug t := by
  have htf : t ∈ ts.filter (fun u => decide (t ≤ u)) :=
    List.mem_filter.mpr ⟨ht, by simp⟩
  have hmem : (ug.map (fun g => rmQ rows t g)).sum ∈
      (ts.filter (fun u => decide (t ≤ u))).map
        (fun u => (ug.map (fun g => rmQ rows u g)).sum) :=
    List.mem_map_of_mem _ htf
  exact List.single_le_sum
    (fun x hx => by
      obtain ⟨u, _, rfl⟩ := List.mem_map.mp hx
      exact sum_map_nonneg ug _ (fun g _ => rmQ_nonneg rows u g))
    _ hmem

lemma one_le_nAll (ds gs cs : List ℚ) (t0 : ℚ)
    (hg : gs.length = ds.length) (hc : cs.length = ds.length)
    {t : ℚ} (ht : t ∈ tableTimes ds t0) :
    1 ≤ nAll (zip3Rows ds gs cs) (tableTimes ds t0) (uniqueSorted gs) t := by
  obtain ⟨r, hr, hrt⟩ := exists_row_at_time ds gs cs t0 hg hc ht
  have hg0 : r.2.1 ∈ uniqueSorted gs := mem_uniqueSorted.mpr (row_group_mem hr)
  have hcell : r ∈ cell (zip3Rows ds gs cs) t r.2.1 :=
    List.mem_filter.mpr ⟨hr, by simp [hrt]⟩
  have hlen : 1 ≤ (cell (zip3Rows ds gs cs) t r.2.1).length :=
    List.length_pos.mpr (List.ne_nil_of_mem hcell)
  have h1 : (1 : ℚ) ≤ rmQ (zip3Rows ds gs cs) t r.2.1 := by
    unfold rmQ; exact_mod_cast hlen
  have h2 : rmQ (zip3Rows ds gs cs) t r.2.1 ≤
      ((uniqueSorted gs).map (fun g => rmQ (zip3Rows ds gs cs) t g)).sum :=
    List.single_le_sum
      (fun x hx => by
        obtain ⟨g, _, rfl⟩ := List.mem_map.mp hx
        exact rmQ_nonneg _ t g)
      _ (List.mem_map_of_mem _ hg0)
  have h3 := rowsum_le_nAll (zip3Rows ds gs cs) (tableTimes ds t0)
    (uniqueSorted gs) ht
  linarith

lemma sum_map_le_length (L : List (ℚ × ℚ × ℚ)) (f : ℚ × ℚ × ℚ → ℚ)
    (h : ∀ x ∈ L, f x ≤ 1) : (L.map f).sum ≤ (L.length : ℚ) := by
  induction L with
  | nil => simp
  | cons x xs ih =>
    simp only [List.map_cons, List.sum_cons, List.length_cons]
    have h1 := h x (List.mem_cons_self x xs)
    have h2 := ih (fun y hy => h y (List.mem_cons_of_mem x hy))
    push_cast
    linarith

lemma obsQ_le_rmQ (ds gs cs : List ℚ) (t g : ℚ)
    (hflags : ∀ c ∈ cs, c = 0 ∨ c = 1) :
    obsQ (zip3Rows ds gs cs) t g ≤ rmQ (zip3Rows ds gs cs) t g := by
  unfold obsQ rmQ
  apply sum_map_le_length
  intro r hrc
  have hr : r ∈ zip3Rows ds gs cs := List.mem_of_mem_filter hrc
  rcases hflags r.2.2 (row_flag_mem hr) with h | h <;> rw [h] <;> norm_num

lemma obsQ_nonneg (ds gs cs : List ℚ) (t g : ℚ)
    (hflags : ∀ c ∈ cs, c = 0 ∨ c = 1) :
    0 ≤ obsQ (zip3Rows ds gs cs) t g := by
  unfold obsQ
  apply sum_map_nonneg
  intro r hrc
  have hr : r ∈ zip3Rows ds gs cs := List.mem_of_mem_filter hrc
  rcases hflags r.2.2 (row_flag_mem hr) with h | h <;> rw [h] <;> norm_num

lemma dAll_nonneg (ds gs cs : List ℚ) (ug : List ℚ) (t : ℚ)
    (hflags : ∀ c ∈ cs, c = 0 ∨ c = 1) :
    0 ≤ dAll (zip3Rows ds gs cs) ug t := by
  unfold dAll
  exact sum_map_nonneg ug _ (fun g _ => obsQ_nonneg ds gs cs t g hflags)

lemma dAll_le_nAll (ds gs cs : List ℚ) (t0 : ℚ)
    (hflags : ∀ c ∈ cs, c = 0 ∨ c = 1)
    {t : ℚ} (ht : t ∈ tableTimes ds t0) :
    dAll (zip3Rows ds gs cs) (uniqueSorted gs) t ≤
      nAll (zip3Rows ds gs cs) (tableTimes ds t0) (uniqueSorted gs) t := by
  have h1 : dAll (zip3Rows ds gs cs) (uniqueSorted gs) t ≤
      ((uniqueSorted gs).map (fun g => rmQ (zip3Rows ds gs cs) t g)).sum := by
    unfold dAll
    exact List.sum_le_sum (fun g _ => obsQ_le_rmQ ds gs cs t g hflags)
  have h2 := rowsum_le_nAll (zip3Rows ds gs cs) (tableTimes ds t0)
    (uniqueSorted gs) ht
  linarith

lemma multivariate_ok (pinv : List (List ℚ) → List (List ℚ))
    (chi2sf : ℚ → ℤ → ℚ) (ds gs cs : List ℚ) (α t0 : ℚ)
    (name : Option (List (ℚ × ℚ))) (kw : List (String × MetaVal))
    (hα : 0 < α ∧ α ≤ 1) (hgl : gs.length = ds.length)
    (hcl : cs.length = ds.length) :
    multivariate_logrank_test pinv chi2sf ds gs (some cs) α t0 name kw =
      Except.ok
        { pValues := [(chisq_test chi2sf
              (quadU pinv (zip3Rows ds gs cs) (tableTimes ds t0)
                (uniqueSorted gs))
              (((uniqueSorted gs).length : ℤ) - 1) α).2],
          stats := [quadU pinv (zip3Rows ds gs cs) (tableTimes ds t0)
              (uniqueSorted gs)],
          name := name,
          kwargs := [("t_0", MetaVal.num t0), ("alpha", MetaVal.num α),
                     ("null_distribution", MetaVal.txt "chi squared"),
                     ("df", MetaVal.num (((uniqueSorted gs).length : ℚ) - 1))]
              ++ kw } := by
  unfold multivariate_logrank_test
  rw [if_neg (not_not_intro hα)]
  rw [if_neg (not_not_intro (show (Option.getD (some cs)
        (List.replicate ds.length 1)).length = ds.length from hcl))]
  rw [if_neg (not_not_intro hgl)]
  rw [if_neg (not_not_intro (by
    rw [show Option.getD (some cs) (List.replicate ds.length 1) = cs from rfl,
        Zvec_sum_eq_zero]
    norm_num))]
  rfl

lemma statAdd_ok_of_wf (a b : StatisticalResult) (ha : wfAcc a)
    (hb : wfAcc b) : ∃ r, statAdd a b = Except.ok r ∧ wfAcc r := by
  obtain ⟨ha1, na, hna, hna2⟩ := ha
  obtain ⟨hb1, nb, hnb, hnb2⟩ := hb
  refine ⟨{ pValues := a.pValues ++ b.pValues, stats := a.stats ++ b.stats,
            name := some (na ++ nb), kwargs := a.kwargs ++ b.kwargs },
          ?_, ?_⟩
  · unfold statAdd
    rw [hna, hnb]
    simp [List.length_append, ha1, hb1, hna2, hnb2]
  · refine ⟨by simp [ha1, hb1], na ++ nb, rfl, by simp [hna2, hnb2]⟩

lemma wfSingle (p u a b : ℚ) (kws : List (String × MetaVal)) :
    wfAcc { pValues := [p], stats := [u], name := some [(a, b)],
            kwargs := kws } :=
  ⟨rfl, [(a, b)], rfl, rfl⟩

lemma emptyResult_wf : wfAcc emptyResult := ⟨rfl, [], rfl, rfl⟩

lemma exbind_ok {α β : Type} (a : α) (f : α → Except String β) :
    (Except.ok a : Except String α).bind f = f a := rfl

lemma exbind_error {α β : Type} (s : String) (f : α → Except String β) :
    (Except.error s : Except String α).bind f = Except.error s := rfl

lemma selectBy_length (xs gs : List ℚ) (g : ℚ) (h : xs.length = gs.length) :
    (selectBy xs gs g).length = gs.countP (fun x => decide (x = g)) := by
  induction xs generalizing gs with
  | nil =>
    cases gs with
    | nil => rfl
    | cons y ys => simp at h
  | cons x xs ih =>
    cases gs with
    | nil => simp at h
    | cons y ys =>
      simp only [List.length_cons, Nat.succ.injEq] at h
      have htail := ih ys h
      unfold selectBy at htail ⊢
      rw [List.zip_cons_cons, List.filter_cons, List.countP_cons]
      by_cases hy : y = g
      · simp [hy, htail]
      · simp [hy, htail]

lemma pairStep_ok (pinv : List (List ℚ) → List (List ℚ))
    (chi2sf : ℚ → ℤ → ℚ) (ds gs cs : List ℚ) (alphaSub t0 : ℚ) (b : Bool)
    (kw : List (String × MetaVal)) (hα : 0 < alphaSub ∧ alphaSub ≤ 1)
    (hgl : gs.length = ds.length) (hcl : cs.length = ds.length)
    (acc : StatisticalResult) (hacc : wfAcc acc) (pr : ℚ × ℚ) :
    ∃ r, pairStep pinv chi2sf ds gs cs alphaSub t0 b kw acc pr =
        Except.ok r ∧ wfAcc r := by
  have hdg : ds.length = gs.length := hgl.symm
  have hcg : cs.length = gs.length := hcl.trans hgl.symm
  have hsel1 : (selectBy cs gs pr.1).length = (selectBy ds gs pr.1).length := by
    rw [selectBy_length cs gs pr.1 hcg, selectBy_length ds gs pr.1 hdg]
  have hsel2 : (selectBy cs gs pr.2).length = (selectBy ds gs pr.2).length := by
    rw [selectBy_length cs gs pr.2 hcg, selectBy_length ds gs pr.2 hdg]
  unfold pairStep logrank_test
  simp only [Option.getD_some]
  rw [multivariate_ok pinv chi2sf
      (selectBy ds gs pr.1 ++ selectBy ds gs pr.2)
      (List.replicate (selectBy ds gs pr.1).length 0 ++
        List.replicate (selectBy ds gs pr.2).length 1)
      (selectBy cs gs pr.1 ++ selectBy cs gs pr.2) alphaSub t0 _ _ hα
      (by simp) (by simp [List.length_append, hsel1, hsel2])]
  exact statAdd_ok_of_wf acc _ hacc (wfSingle _ _ pr.1 pr.2 _)

lemma pairwiseFold_ok_aux (pinv : List (List ℚ) → List (List ℚ))
    (chi2sf : ℚ → ℤ → ℚ) (ds gs cs : List ℚ) (alphaSub t0 : ℚ) (b : Bool)
    (kw : List (String × MetaVal)) (hα : 0 < alphaSub ∧ alphaSub ≤ 1)
    (hgl : gs.length = ds.length) (hcl : cs.length = ds.length) :
    ∀ (prs : List (ℚ × ℚ)) (acc : StatisticalResult), wfAcc acc →
      ∃ r, List.foldlM (pairStep pinv chi2sf ds gs cs alphaSub t0 b kw)
          acc prs = Except.ok r ∧ wfAcc r := by
  intro prs
  induction prs with
  | nil => intro acc h; exact ⟨acc, rfl, h⟩
  | cons p ps ih =>
    intro acc h
    obtain ⟨r1, h1, hw1⟩ :=
      pairStep_ok pinv chi2sf ds gs cs alphaSub t0 b kw hα hgl hcl acc h p
    obtain ⟨r, hr, hwr⟩ := ih r1 hw1
    refine ⟨r, ?_, hwr⟩
    rw [List.foldlM_cons, h1]
    exact hr

lemma two_le_length_of_pairsOf_ne_nil {l : List ℚ} (h : pairsOf l ≠ []) :
    2 ≤ l.length := by
  match l with
  | [] => exact absurd rfl h
  | [x] => exact absurd (by simp [pairsOf]) h
  | x :: y :: rest => simp only [List.length_cons]; omega

lemma pairsOf_length (l : List ℚ) : (pairsOf l).length = l.length.choose 2 := by
  induction l with
  | nil => simp [pairsOf]
  | cons x xs ih =>
    rw [List.length_cons, Nat.choose_succ_succ, Nat.choose_one_right]
    unfold pairsOf
    rw [List.length_append, List.length_map, ih]

lemma alphaSub_valid (k : ℕ) (α : ℚ) (hα : 0 < α ∧ α ≤ 1) (hk : 2 ≤ k) :
    0 < 1 - (1 - α) / ((k : ℚ) * ((k : ℚ) - 1) / 2) ∧
      1 - (1 - α) / ((k : ℚ) * ((k : ℚ) - 1) / 2) ≤ 1 := by
  have hk2 : (2 : ℚ) ≤ (k : ℚ) := by exact_mod_cast hk
  have hM : 1 ≤ (k : ℚ) * ((k : ℚ) - 1) / 2 := by nlinarith
  constructor
  · have h1 : (1 - α) / ((k : ℚ) * ((k : ℚ) - 1) / 2) ≤ 1 - α :=
      div_le_self (by linarith [hα.2]) hM
    linarith [hα.1]
  · have h0 : 0 ≤ (1 - α) / ((k : ℚ) * ((k : ℚ) - 1) / 2) :=
      div_nonneg (by linarith [hα.2]) (by linarith)
    linarith

lemma bonferroni_m_eq_zero {k : ℕ} (hk : k < 2) :
    (k : ℚ) * ((k : ℚ) - 1) / 2 = 0 := by
  rcases (by omega : k = 0 ∨ k = 1) with h | h
  · subst h; norm_num
  · subst h; norm_num

lemma bonferroni_m_ne_zero {k : ℕ} (hk : 2 ≤ k) :
    (k : ℚ) * ((k : ℚ) - 1) / 2 ≠ 0 := by
  have hk2 : (2 : ℚ) ≤ (k : ℚ) := by exact_mod_cast hk
  intro h
  nlinarith

lemma pairwise_ok (pinv : List (List ℚ) → List (List ℚ))
    (chi2sf : ℚ → ℤ → ℚ) (ds gs cs : List ℚ) (α t0 : ℚ) (b : Bool)
    (kw : List (String × MetaVal)) (hα : 0 < α ∧ α ≤ 1)
    (hgl : gs.length = ds.length) (hcl : cs.length = ds.length)
    (hb : b = false ∨ 2 ≤ (uniqueSorted gs).length) :
    ∃ r, pairwise_logrank_test pinv chi2sf (PyArr.ndarray ds) gs (some cs)
        α t0 b kw = Except.ok r := by
  have hguard : ¬ (b = true ∧
      ((uniqueSorted gs).length : ℚ) *
        (((uniqueSorted gs).length : ℚ) - 1) / 2 = 0) := by
    rintro ⟨hbt, hM⟩
    rcases hb with hbf | hk
    · rw [hbf] at hbt
      exact Bool.noConfusion hbt
    · exact bonferroni_m_ne_zero hk hM
  have hαs : 0 < (if b then 1 - (1 - α) /
        (((uniqueSorted gs).length : ℚ) *
          (((uniqueSorted gs).length : ℚ) - 1) / 2) else α) ∧
      (if b then 1 - (1 - α) /
        (((uniqueSorted gs).length : ℚ) *
          (((uniqueSorted gs).length : ℚ) - 1) / 2) else α) ≤ 1 := by
    cases b with
    | false => simpa using hα
    | true =>
      rcases hb with hbf | hk
      · exact Bool.noConfusion hbf
      · simpa using alphaSub_valid (uniqueSorted gs).length α hα hk
  obtain ⟨r, hr, _⟩ := pairwiseFold_ok_aux pinv chi2sf ds gs cs _ t0 b kw
    hαs hgl hcl (pairsOf (uniqueSorted gs)) emptyResult emptyResult_wf
  refine ⟨r, ?_⟩
  unfold pairwise_logrank_test
  rw [show pairwiseCens (PyArr.ndarray ds) (some cs) = Except.ok cs from rfl,
      exbind_ok,
      if_neg (not_not_intro
        (show gs.length = (pyList (PyArr.ndarray ds)).length from hgl)),
      if_neg (not_not_intro
        (show cs.length = (pyList (PyArr.ndarray ds)).length from hcl)),
      if_neg hguard]
  exact hr

lemma pairwise_zerodivision (pinv : List (List ℚ) → List (List ℚ))
    (chi2sf : ℚ → ℤ → ℚ) (ds gs cs : List ℚ) (α t0 : ℚ)
    (kw : List (String × MetaVal))
    (hgl : gs.length = ds.length) (hcl : cs.length = ds.length)
    (hk : (uniqueSorted gs).length < 2) :
    pairwise_logrank_test pinv chi2sf (PyArr.ndarray ds) gs (some cs) α t0
        true kw =
      Except.error "ZeroDivisionError: float division by zero" := by
  unfold pairwise_logrank_test
  rw [show pairwiseCens (PyArr.ndarray ds) (some cs) = Except.ok cs from rfl,
      exbind_ok,
      if_neg (not_not_intro
        (show gs.length = (pyList (PyArr.ndarray ds)).length from hgl)),
      if_neg (not_not_intro
        (show cs.length = (pyList (PyArr.ndarray ds)).length from hcl)),
      if_pos ⟨rfl, bonferroni_m_eq_zero hk⟩]

lemma pairwise_default_cens_ok (pinv : List (List ℚ) → List (List ℚ))
    (chi2sf : ℚ → ℤ → ℚ) (ds gs : List ℚ) (α t0 : ℚ) (b : Bool)
    (kw : List (String × MetaVal)) (hα : 0 < α ∧ α ≤ 1)
    (hgl : gs.length = ds.length)
    (hb : b = false ∨ 2 ≤ (uniqueSorted gs).length) :
    ∃ r, pairwise_logrank_test pinv chi2sf (PyArr.ndarray ds) gs none
        α t0 b kw = Except.ok r := by
  have hcl : (List.replicate ds.length (1 : ℚ)).length = ds.length := by simp
  have hguard : ¬ (b = true ∧
      ((uniqueSorted gs).length : ℚ) *
        (((uniqueSorted gs).length : ℚ) - 1) / 2 = 0) := by
    rintro ⟨hbt, hM⟩
    rcases hb with hbf | hk
    · rw [hbf] at hbt
      exact Bool.noConfusion hbt
    · exact bonferroni_m_ne_zero hk hM
  have hαs : 0 < (if b then 1 - (1 - α) /
        (((uniqueSorted gs).length : ℚ) *
          (((uniqueSorted gs).length : ℚ) - 1) / 2) else α) ∧
      (if b then 1 - (1 - α) /
        (((uniqueSorted gs).length : ℚ) *
          (((uniqueSorted gs).length : ℚ) - 1) / 2) else α) ≤ 1 := by
    cases b with
    | false => simpa using hα
    | true =>
      rcases hb with hbf | hk
      · exact Bool.noConfusion hbf
      · simpa using alphaSub_valid (uniqueSorted gs).length α hα hk
  obtain ⟨r, hr, _⟩ := pairwiseFold_ok_aux pinv chi2sf ds gs
    (List.replicate ds.length 1) _ t0 b kw hαs hgl hcl
    (pairsOf (uniqueSorted gs)) emptyResult emptyResult_wf
  refine ⟨r, ?_⟩
  unfold pairwise_logrank_test
  rw [show pairwiseCens (PyArr.ndarray ds) none =
        Except.ok (List.replicate ds.length (1 : ℚ)) from rfl,
      exbind_ok,
      if_neg (not_not_intro
        (show gs.length = (pyList (PyArr.ndarray ds)).length from hgl)),
      if_neg (not_not_intro
        (show (List.replicate ds.length (1 : ℚ)).length =
          (pyList (PyArr.ndarray ds)).length from hcl)),
      if_neg hguard]
  exact hr

lemma pairwise_default_zerodivision (pinv : List (List ℚ) → List (List ℚ))
    (chi2sf : ℚ → ℤ → ℚ) (ds gs : List ℚ) (α t0 : ℚ)
    (kw : List (String × MetaVal)) (hgl : gs.length = ds.length)
    (hk : (uniqueSorted gs).length < 2) :
    pairwise_logrank_test pinv chi2sf (PyArr.ndarray ds) gs none α t0
        true kw =
      Except.error "ZeroDivisionError: float division by zero" := by
  unfold pairwise_logrank_test
  rw [show pairwiseCens (PyArr.ndarray ds) none =
        Except.ok (List.replicate ds.length (1 : ℚ)) from rfl,
      exbind_ok,
      if_neg (not_not_intro
        (show gs.length = (pyList (PyArr.ndarray ds)).length from hgl)),
      if_neg (not_not_intro
        (show (List.replicate ds.length (1 : ℚ)).length =
          (pyList (PyArr.ndarray ds)).length by simp [pyList])),
      if_pos ⟨rfl, bonferroni_m_eq_zero hk⟩]

lemma multivariate_mismatch_error (pinv : List (List ℚ) → List (List ℚ))
    (chi2sf : ℚ → ℤ → ℚ) (ds gs cs : List ℚ) (α t0 : ℚ)
    (name : Option (List (ℚ × ℚ))) (kw : List (String × MetaVal))
    (h : ¬ (gs.length = ds.length ∧ cs.length = ds.length)) :
    exceptIsOk (multivariate_logrank_test pinv chi2sf ds gs (some cs)
        α t0 name kw) = false := by
  unfold multivariate_logrank_test
  by_cases hc : cs.length = ds.length
  · have hg : gs.length ≠ ds.length := fun hg => h ⟨hg, hc⟩
    by_cases ha : 0 < α ∧ α ≤ 1
    · rw [if_neg (not_not_intro ha),
        if_neg (not_not_intro (show (Option.getD (some cs)
          (List.replicate ds.length 1)).length = ds.length from hc)),
        if_pos hg]
      rfl
    · rw [if_pos ha]
      rfl
  · by_cases ha : 0 < α ∧ α ≤ 1
    · rw [if_neg (not_not_intro ha),
        if_pos (show (Option.getD (some cs)
          (List.replicate ds.length 1)).length ≠ ds.length from hc)]
      rfl
    · rw [if_pos ha]
      rfl

lemma pairwise_mismatch_error (pinv : List (List ℚ) → List (List ℚ))
    (chi2sf : ℚ → ℤ → ℚ) (ds gs cs : List ℚ) (α t0 : ℚ) (b : Bool)
    (kw : List (String × MetaVal))
    (h : ¬ (gs.length = ds.length ∧ cs.length = ds.length)) :
    exceptIsOk (pairwise_logrank_test pinv chi2sf (PyArr.ndarray ds) gs
        (some cs) α t0 b kw) = false := by
  unfold pairwise_logrank_test
  rw [show pairwiseCens (PyArr.ndarray ds) (some cs) = Except.ok cs from rfl,
      exbind_ok]
  by_cases hg : gs.length = ds.length
  · have hc : cs.length ≠ ds.length := fun hc => h ⟨hg, hc⟩
    rw [if_neg (not_not_intro
        (show gs.length = (pyList (PyArr.ndarray ds)).length from hg)),
      if_pos (show cs.length ≠ (pyList (PyArr.ndarray ds)).length from hc)]
    rfl
  · rw [if_pos (show gs.length ≠ (pyList (PyArr.ndarray ds)).length from hg)]
    rfl

/-- C1: for every two-sample dataset (with censorship defaulting to
all-observed) and every alpha and t_0, `logrank_test` returns exactly the same
result — test statistic and p-value included — as `multivariate_logrank_test`
applied to the concatenated durations and censorship with group label 0 for
every A-individual and 1 for every B-individual.  The equality is exact, hence
within any floating tolerance. -/
theorem logrank_refines_two_group_engine
    (pinv : List (List ℚ) → List (List ℚ)) (chi2sf : ℚ → ℤ → ℚ)
    (dA dB : List ℚ) (cA cB : Option (List ℚ)) (α t0 : ℚ)
    (name : Option (List (ℚ × ℚ))) (kw : List (String × MetaVal)) :
    logrank_test pinv chi2sf dA dB cA cB α t0 name kw =
      logrank_test_spec pinv chi2sf dA dB cA cB α t0 name kw := rfl

/-- C2: for every valid input to `multivariate_logrank_test` (aligned arrays,
k ≥ 2 groups, alpha in (0,1]) the observed-minus-expected vector sums to zero
exactly — stronger than the claimed floating tolerance — so the internal
`Sum is not zero.` assertion never fires and the call completes. -/
theorem multivariate_Z_sum_invariant
    (pinv : List (List ℚ) → List (List ℚ)) (chi2sf : ℚ → ℤ → ℚ)
    (ds gs cs : List ℚ) (α t0 : ℚ) (name : Option (List (ℚ × ℚ)))
    (kw : List (String × MetaVal)) (hα : 0 < α ∧ α ≤ 1)
    (hgl : gs.length = ds.length) (hcl : cs.length = ds.length)
    (hk : 2 ≤ (uniqueSorted gs).length) :
    (Zvec (zip3Rows ds gs cs) (tableTimes ds t0) (uniqueSorted gs)).sum = 0 ∧
    multivariate_logrank_test pinv chi2sf ds gs (some cs) α t0 name kw ≠
      Except.error "Sum is not zero." ∧
    exceptIsOk (multivariate_logrank_test pinv chi2sf ds gs (some cs)
        α t0 name kw) = true := by
  refine ⟨Zvec_sum_eq_zero _ _ _, ?_, ?_⟩
  · rw [multivariate_ok pinv chi2sf ds gs cs α t0 name kw hα hgl hcl]
    intro hcon
    exact Except.noConfusion hcon
  · rw [multivariate_ok pinv chi2sf ds gs cs α t0 name kw hα hgl hcl]
    rfl

/-- Witness for C2 at a concrete two-group dataset. -/
theorem multivariate_Z_sum_invariant_witness :
    (Zvec (zip3Rows [1, 2] [0, 1] [1, 1]) (tableTimes [1, 2] (-1))
        (uniqueSorted [0, 1])).sum = 0 ∧
    multivariate_logrank_test pinv0 chi2sf0 [1, 2] [0, 1] (some [1, 1])
        (19 / 20) (-1) none [] ≠ Except.error "Sum is not zero." ∧
    exceptIsOk (multivariate_logrank_test pinv0 chi2sf0 [1, 2] [0, 1]
        (some [1, 1]) (19 / 20) (-1) none []) = true :=
  multivariate_Z_sum_invariant pinv0 chi2sf0 [1, 2] [0, 1] [1, 1] (19 / 20)
    (-1) none [] ⟨by norm_num, by norm_num⟩ (by decide) (by decide) (by decide)

/-- C5: at every time step of the survival table, the float expression
`(n_i - d_i) / (n_i - 1)` is non-finite exactly where `n_i = 1` (0/0 when the
step's events consume the whole risk set, 1/0 otherwise), and after the
`replace([inf, nan], 1)` step it is the finite rational `safeRatio n_i d_i`
used in the covariance weight, equal to 1 wherever `n_i = 1`; hence no NaN or
infinity enters the covariance matrix for any valid input. -/
theorem variance_factor_replacement (ds gs cs : List ℚ) (t0 : ℚ)
    (hgl : gs.length = ds.length) (hcl : cs.length = ds.length)
    (hflags : ∀ c ∈ cs, c = 0 ∨ c = 1) :
    ∀ t ∈ tableTimes ds t0,
      replaceInfNan (divE
          (nAll (zip3Rows ds gs cs) (tableTimes ds t0) (uniqueSorted gs) t -
            dAll (zip3Rows ds gs cs) (uniqueSorted gs) t)
          (nAll (zip3Rows ds gs cs) (tableTimes ds t0) (uniqueSorted gs) t -
            1)) =
        ExtQ.fin (safeRatio
          (nAll (zip3Rows ds gs cs) (tableTimes ds t0) (uniqueSorted gs) t)
          (dAll (zip3Rows ds gs cs) (uniqueSorted gs) t)) ∧
      (nAll (zip3Rows ds gs cs) (tableTimes ds t0) (uniqueSorted gs) t = 1 →
        safeRatio
          (nAll (zip3Rows ds gs cs) (tableTimes ds t0) (uniqueSorted gs) t)
          (dAll (zip3Rows ds gs cs) (uniqueSorted gs) t) = 1) := by
  intro t ht
  have hn1 : 1 ≤ nAll (zip3Rows ds gs cs) (tableTimes ds t0)
      (uniqueSorted gs) t := one_le_nAll ds gs cs t0 hgl hcl ht
  have hdn : dAll (zip3Rows ds gs cs) (uniqueSorted gs) t ≤
      nAll (zip3Rows ds gs cs) (tableTimes ds t0) (uniqueSorted gs) t :=
    dAll_le_nAll ds gs cs t0 hflags ht
  set N := nAll (zip3Rows ds gs cs) (tableTimes ds t0) (uniqueSorted gs) t
    with hNdef
  set D := dAll (zip3Rows ds gs cs) (uniqueSorted gs) t with hDdef
  constructor
  · by_cases hone : N = 1
    · rw [hone]
      unfold divE
      rw [if_pos (show (1 : ℚ) - 1 = 0 by norm_num)]
      have hd1 : D ≤ 1 := hone ▸ hdn
      rcases lt_or_eq_of_le (show (0 : ℚ) ≤ 1 - D by linarith) with hlt | heq
      · rw [if_neg (by linarith), if_pos hlt]
        simp [replaceInfNan, safeRatio]
      · rw [if_pos heq.symm]
        simp [replaceInfNan, safeRatio]
    · have hne : N - 1 ≠ 0 := sub_ne_zero.mpr hone
      unfold divE
      rw [if_neg hne]
      unfold safeRatio
      rw [if_neg hone]
      rfl
  · intro h1
    unfold safeRatio
    rw [if_pos h1]

/-- Witness for C5 at a concrete dataset, evaluated at the final time step,
whose risk set has size one. -/
theorem variance_factor_replacement_witness :
    replaceInfNan (divE
        (nAll (zip3Rows [1, 2] [0, 1] [1, 1]) (tableTimes [1, 2] (-1))
            (uniqueSorted [0, 1]) 2 -
          dAll (zip3Rows [1, 2] [0, 1] [1, 1]) (uniqueSorted [0, 1]) 2)
        (nAll (zip3Rows [1, 2] [0, 1] [1, 1]) (tableTimes [1, 2] (-1))
            (uniqueSorted [0, 1]) 2 - 1)) =
      ExtQ.fin (safeRatio
        (nAll (zip3Rows [1, 2] [0, 1] [1, 1]) (tableTimes [1, 2] (-1))
          (uniqueSorted [0, 1]) 2)
        (dAll (zip3Rows [1, 2] [0, 1] [1, 1]) (uniqueSorted [0, 1]) 2)) ∧
    (nAll (zip3Rows [1, 2] [0, 1] [1, 1]) (tableTimes [1, 2] (-1))
        (uniqueSorted [0, 1]) 2 = 1 →
      safeRatio
        (nAll (zip3Rows [1, 2] [0, 1] [1, 1]) (tableTimes [1, 2] (-1))
          (uniqueSorted [0, 1]) 2)
        (dAll (zip3Rows [1, 2] [0, 1] [1, 1]) (uniqueSorted [0, 1]) 2) =
        1) :=
  variance_factor_replacement [1, 2] [0, 1] [1, 1] (-1) (by decide)
    (by decide) (by decide) 2 (by decide)

/-- C6: with index-aligned censorship supplied, both `pairwise_logrank_test`
and `multivariate_logrank_test` raise a fatal validation error (no result is
produced) exactly when the three arrays do not share a common length; on
equal-length inputs the multivariate engine completes, and the pairwise
wrapper never raises the length-validation error — it completes whenever the
Bonferroni divisor `m = k(k-1)/2` is nonzero (the flag off, or at least two
unique groups); with the flag on and fewer than two groups the source instead
raises a `ZeroDivisionError`, which is not a length-validation error. -/
theorem length_validation (pinv : List (List ℚ) → List (List ℚ))
    (chi2sf : ℚ → ℤ → ℚ) (ds gs cs : List ℚ) (α t0 : ℚ) (b : Bool)
    (name : Option (List (ℚ × ℚ))) (kw : List (String × MetaVal))
    (hα : 0 < α ∧ α ≤ 1) :
    (¬ (gs.length = ds.length ∧ cs.length = ds.length) →
      exceptIsOk (multivariate_logrank_test pinv chi2sf ds gs (some cs)
          α t0 name kw) = false ∧
      exceptIsOk (pairwise_logrank_test pinv chi2sf (PyArr.ndarray ds) gs
          (some cs) α t0 b kw) = false) ∧
    ((gs.length = ds.length ∧ cs.length = ds.length) →
      exceptIsOk (multivariate_logrank_test pinv chi2sf ds gs (some cs)
          α t0 name kw) = true ∧
      pairwise_logrank_test pinv chi2sf (PyArr.ndarray ds) gs (some cs)
          α t0 b kw ≠ Except.error "ValueError: cannot reshape" ∧
      (b = false ∨ 2 ≤ (uniqueSorted gs).length →
        exceptIsOk (pairwise_logrank_test pinv chi2sf (PyArr.ndarray ds) gs
            (some cs) α t0 b kw) = true)) := by
  constructor
  · intro h
    exact ⟨multivariate_mismatch_error pinv chi2sf ds gs cs α t0 name kw h,
           pairwise_mismatch_error pinv chi2sf ds gs cs α t0 b kw h⟩
  · intro h
    refine ⟨?_, ?_, ?_⟩
    · rw [multivariate_ok pinv chi2sf ds gs cs α t0 name kw hα h.1 h.2]
      rfl
    · by_cases hb : b = false ∨ 2 ≤ (uniqueSorted gs).length
      · obtain ⟨r, hr⟩ :=
          pairwise_ok pinv chi2sf ds gs cs α t0 b kw hα h.1 h.2 hb
        rw [hr]
        intro hcon
        exact Except.noConfusion hcon
      · push_neg at hb
        have hbt : b = true := by
          cases b
          · exact absurd rfl hb.1
          · rfl
        subst hbt
        rw [pairwise_zerodivision pinv chi2sf ds gs cs α t0 kw h.1 h.2 hb.2]
        intro hcon
        injection hcon with hcon
        exact absurd hcon (by decide)
    · intro hb
      obtain ⟨r, hr⟩ :=
        pairwise_ok pinv chi2sf ds gs cs α t0 b kw hα h.1 h.2 hb
      rw [hr]
      rfl

/-- Witness for C6 at concrete inputs. -/
theorem length_validation_witness :
    (¬ ((List.length [0, 1] = List.length [1, 2]) ∧
        (List.length [1] = List.length [1, 2])) →
      exceptIsOk (multivariate_logrank_test pinv0 chi2sf0 [1, 2] [0, 1]
          (some [1]) (19 / 20) (-1) none []) = false ∧
      exceptIsOk (pairwise_logrank_test pinv0 chi2sf0 (PyArr.ndarray [1, 2])
          [0, 1] (some [1]) (19 / 20) (-1) true []) = false) ∧
    ((List.length [0, 1] = List.length [1, 2] ∧
        List.length [1] = List.length [1, 2]) →
      exceptIsOk (multivariate_logrank_test pinv0 chi2sf0 [1, 2] [0, 1]
          (some [1]) (19 / 20) (-1) none []) = true ∧
      pairwise_logrank_test pinv0 chi2sf0 (PyArr.ndarray [1, 2]) [0, 1]
          (some [1]) (19 / 20) (-1) true [] ≠
        Except.error "ValueError: cannot reshape" ∧
      (true = false ∨ 2 ≤ (uniqueSorted [0, 1]).length →
        exceptIsOk (pairwise_logrank_test pinv0 chi2sf0
            (PyArr.ndarray [1, 2]) [0, 1] (some [1]) (19 / 20) (-1) true
            []) = true)) :=
  length_validation pinv0 chi2sf0 [1, 2] [0, 1] [1] (19 / 20) (-1) true none
    [] ⟨by norm_num, by norm_num⟩

/-- C3: with the Bonferroni flag on and k ≥ 2 unique groups,
`pairwise_logrank_test` runs exactly the C(k,2) pairwise sub-tests, each
invoked through the fold with effective alpha `1 - (1 - alpha) / M` where
`M = k(k-1)/2`, and `chisq_test` at that adjusted alpha decides significance
by comparing the p-value against `1 - effective_alpha`. -/
theorem pairwise_bonferroni_effective_alpha
    (pinv : List (List ℚ) → List (List ℚ)) (chi2sf : ℚ → ℤ → ℚ)
    (ds gs cs : List ℚ) (α t0 : ℚ) (kw : List (String × MetaVal))
    (hgl : gs.length = ds.length) (hcl : cs.length = ds.length)
    (hk : 2 ≤ (uniqueSorted gs).length) :
    pairwise_logrank_test pinv chi2sf (PyArr.ndarray ds) gs (some cs) α t0
        true kw =
      pairwiseFold pinv chi2sf ds gs cs
        (1 - (1 - α) /
          (((uniqueSorted gs).length : ℚ) *
            (((uniqueSorted gs).length : ℚ) - 1) / 2))
        t0 true kw (pairsOf (uniqueSorted gs)) ∧
    (pairsOf (uniqueSorted gs)).length = (uniqueSorted gs).length.choose 2 ∧
    (∀ U df, (chisq_test chi2sf U df
        (1 - (1 - α) /
          (((uniqueSorted gs).length : ℚ) *
            (((uniqueSorted gs).length : ℚ) - 1) / 2))).1 =
      if chi2sf U df <
          1 - (1 - (1 - α) /
            (((uniqueSorted gs).length : ℚ) *
              (((uniqueSorted gs).length : ℚ) - 1) / 2)) then some true
      else none) := by
  refine ⟨?_, pairsOf_length _, ?_⟩
  · unfold pairwise_logrank_test
    rw [show pairwiseCens (PyArr.ndarray ds) (some cs) = Except.ok cs
          from rfl,
        exbind_ok,
        if_neg (not_not_intro
          (show gs.length = (pyList (PyArr.ndarray ds)).length from hgl)),
        if_neg (not_not_intro
          (show cs.length = (pyList (PyArr.ndarray ds)).length from hcl)),
        if_neg (show ¬ ((true : Bool) = true ∧
            ((uniqueSorted gs).length : ℚ) *
              (((uniqueSorted gs).length : ℚ) - 1) / 2 = 0) from
          fun hcon => bonferroni_m_ne_zero hk hcon.2)]
    rfl
  · intro U df
    unfold chisq_test
    by_cases h : chi2sf U df <
        1 - (1 - (1 - α) /
          (((uniqueSorted gs).length : ℚ) *
            (((uniqueSorted gs).length : ℚ) - 1) / 2))
    · rw [if_pos h, if_pos h]
    · rw [if_neg h, if_neg h]

/-- Witness for C3 at a concrete two-group dataset. -/
theorem pairwise_bonferroni_effective_alpha_witness :
    pairwise_logrank_test pinv0 chi2sf0 (PyArr.ndarray [1, 2]) [0, 1]
        (some [1, 1]) (19 / 20) (-1) true [] =
      pairwiseFold pinv0 chi2sf0 [1, 2] [0, 1] [1, 1]
        (1 - (1 - 19 / 20) /
          (((uniqueSorted [0, 1]).length : ℚ) *
            (((uniqueSorted [0, 1]).length : ℚ) - 1) / 2))
        (-1) true [] (pairsOf (uniqueSorted [0, 1])) ∧
    (pairsOf (uniqueSorted [0, 1])).length =
      (uniqueSorted [0, 1]).length.choose 2 ∧
    (∀ U df, (chisq_test chi2sf0 U df
        (1 - (1 - 19 / 20) /
          (((uniqueSorted [0, 1]).length : ℚ) *
            (((uniqueSorted [0, 1]).length : ℚ) - 1) / 2))).1 =
      if chi2sf0 U df <
          1 - (1 - (1 - 19 / 20) /
            (((uniqueSorted [0, 1]).length : ℚ) *
              (((uniqueSorted [0, 1]).length : ℚ) - 1) / 2)) then some true
      else none) :=
  pairwise_bonferroni_effective_alpha pinv0 chi2sf0 [1, 2] [0, 1] [1, 1]
    (19 / 20) (-1) [] (by decide) (by decide) (by decide)

/-- C10: when censorship is omitted, `pairwise_logrank_test` reads
`durations.shape` before converting the argument, so a plain Python list
fails with an `AttributeError` before any pairwise test runs; with an ndarray
duration argument the all-observed default is built (no attribute error), and
the call completes whenever the Bonferroni divisor is nonzero (the flag off,
or at least two unique groups). -/
theorem pairwise_default_censorship_shape_access
    (pinv : List (List ℚ) → List (List ℚ)) (chi2sf : ℚ → ℤ → ℚ)
    (l gs ds2 gs2 : List ℚ) (α t0 : ℚ) (b : Bool)
    (kw : List (String × MetaVal)) (hα : 0 < α ∧ α ≤ 1)
    (hgl : gs2.length = ds2.length) :
    pairwise_logrank_test pinv chi2sf (PyArr.pylist l) gs none α t0 b kw =
      Except.error "AttributeError: list object has no attribute shape" ∧
    pairwise_logrank_test pinv chi2sf (PyArr.ndarray ds2) gs2 none α t0 b
        kw ≠
      Except.error "AttributeError: list object has no attribute shape" ∧
    (b = false ∨ 2 ≤ (uniqueSorted gs2).length →
      exceptIsOk (pairwise_logrank_test pinv chi2sf (PyArr.ndarray ds2) gs2
          none α t0 b kw) = true) := by
  refine ⟨?_, ?_, ?_⟩
  · unfold pairwise_logrank_test
    rw [show pairwiseCens (PyArr.pylist l) none = Except.error
          "AttributeError: list object has no attribute shape" from rfl,
        exbind_error]
  · by_cases hb : b = false ∨ 2 ≤ (uniqueSorted gs2).length
    · obtain ⟨r, hr⟩ :=
        pairwise_default_cens_ok pinv chi2sf ds2 gs2 α t0 b kw hα hgl hb
      rw [hr]
      intro hcon
      exact Except.noConfusion hcon
    · push_neg at hb
      have hbt : b = true := by
        cases b
        · exact absurd rfl hb.1
        · rfl
      subst hbt
      rw [pairwise_default_zerodivision pinv chi2sf ds2 gs2 α t0 kw hgl
            hb.2]
      intro hcon
      injection hcon with hcon
      exact absurd hcon (by decide)
  · intro hb
    obtain ⟨r, hr⟩ :=
      pairwise_default_cens_ok pinv chi2sf ds2 gs2 α t0 b kw hα hgl hb
    rw [hr]
    rfl

/-- Witness for C10 at concrete inputs. -/
theorem pairwise_default_censorship_shape_access_witness :
    pairwise_logrank_test pinv0 chi2sf0 (PyArr.pylist [1, 2, 3]) [0, 1, 1]
        none (19 / 20) (-1) true [] =
      Except.error "AttributeError: list object has no attribute shape" ∧
    pairwise_logrank_test pinv0 chi2sf0 (PyArr.ndarray [1, 2]) [0, 1] none
        (19 / 20) (-1) true [] ≠
      Except.error "AttributeError: list object has no attribute shape" ∧
    (true = false ∨ 2 ≤ (uniqueSorted [0, 1]).length →
      exceptIsOk (pairwise_logrank_test pinv0 chi2sf0 (PyArr.ndarray [1, 2])
          [0, 1] none (19 / 20) (-1) true []) = true) :=
  pairwise_default_censorship_shape_access pinv0 chi2sf0 [1, 2, 3] [0, 1, 1]
    [1, 2] [0, 1] (19 / 20) (-1) true [] ⟨by norm_num, by norm_num⟩
    (by decide)

lemma summary_length (r : StatisticalResult)
    (h1 : r.pValues.length = r.stats.length)
    (hname : ∀ nl, r.name = some nl → nl.length = r.stats.length) :
    (summary r).length = r.stats.length := by
  unfold summary
  cases hr : r.name with
  | none => simp [List.length_zip, h1]
  | some nl =>
    have hn := hname nl hr
    simp [List.length_insertionSort, List.length_zip, hn, h1]

/-- C7: combining two named `StatisticalResult` values with `+` concatenates
the p-value and statistic arrays (first operand first), concatenates the
names, yields a summary with as many rows as the two operands' summaries
combined, and merges the metadata as a dictionary union in which the right
operand's value wins on any key collision. -/
theorem statAdd_concatenates (a b : StatisticalResult)
    (na nb : List (ℚ × ℚ)) (hna : a.name = some na) (hnb : b.name = some nb)
    (hla : na.length = a.stats.length) (hlb : nb.length = b.stats.length)
    (hpa : a.pValues.length = a.stats.length)
    (hpb : b.pValues.length = b.stats.length) :
    ∃ r, statAdd a b = Except.ok r ∧
      r.pValues = a.pValues ++ b.pValues ∧
      r.stats = a.stats ++ b.stats ∧
      r.name = some (na ++ nb) ∧
      (summary r).length = (summary a).length + (summary b).length ∧
      (∀ k, kwLookup r.kwargs k =
        (kwLookup b.kwargs k).elim (kwLookup a.kwargs k) some) := by
  refine ⟨{ pValues := a.pValues ++ b.pValues, stats := a.stats ++ b.stats,
            name := some (na ++ nb), kwargs := a.kwargs ++ b.kwargs },
          ?_, rfl, rfl, rfl, ?_, ?_⟩
  · unfold statAdd
    rw [hna, hnb]
    simp [hpa, hpb, hla, hlb]
  · rw [summary_length _ (by simp [hpa, hpb])
          (by
            intro nl h
            injection h with h
            rw [← h]
            simp [hla, hlb]),
        summary_length a hpa
          (by
            intro nl h
            rw [hna] at h
            injection h with h
            rw [← h]
            exact hla),
        summary_length b hpb
          (by
            intro nl h
            rw [hnb] at h
            injection h with h
            rw [← h]
            exact hlb)]
    simp
  · intro k
    unfold kwLookup
    rw [List.reverse_append, List.find?_append]
    cases hf : b.kwargs.reverse.find? (fun p => p.1 == k) with
    | none => simp [hf]
    | some v => simp [hf]

/-- Witness for C7 at two concrete named results with a colliding key. -/
theorem statAdd_concatenates_witness :
    ∃ r, statAdd srNamedA srNamedB = Except.ok r ∧
      r.pValues = srNamedA.pValues ++ srNamedB.pValues ∧
      r.stats = srNamedA.stats ++ srNamedB.stats ∧
      r.name = some ([(0, 1)] ++ [(0, 2)]) ∧
      (summary r).length = (summary srNamedA).length +
        (summary srNamedB).length ∧
      (∀ k, kwLookup r.kwargs k =
        (kwLookup srNamedB.kwargs k).elim (kwLookup srNamedA.kwargs k)
          some) :=
  statAdd_concatenates srNamedA srNamedB [(0, 1)] [(0, 2)] rfl rfl
    (by decide) (by decide) (by decide) (by decide)

/-- Counterexample for C8 as stated: both operands agree on having no names
(as two plain `logrank_test` results do), yet `+` still raises, because
`self.name + other.name` is `None + None`. -/
theorem statAdd_both_noname_raises :
    exceptIsOk (statAdd srNoName srNoName) = false ∧
      srNoName.name = none ∧
      srNoName.pValues.length = srNoName.stats.length := by
  refine ⟨rfl, rfl, rfl⟩

/-- C8 (amended): combining two well-formed `StatisticalResult` values with
`+` succeeds exactly when BOTH operands carry name lists; it raises whenever
either operand lacks names — including the case where both lack them. -/
theorem statAdd_succeeds_iff_both_named (a b : StatisticalResult)
    (hpa : a.pValues.length = a.stats.length)
    (hpb : b.pValues.length = b.stats.length)
    (hna : a.name.elim True (fun nl => nl.length = a.stats.length))
    (hnb : b.name.elim True (fun nl => nl.length = b.stats.length)) :
    exceptIsOk (statAdd a b) = true ↔ (a.name.isSome ∧ b.name.isSome) := by
  cases ha : a.name with
  | none =>
    cases hb : b.name with
    | none =>
      unfold statAdd
      rw [ha, hb]
      simp [exceptIsOk]
    | some nb =>
      unfold statAdd
      rw [ha, hb]
      simp [exceptIsOk]
  | some na =>
    cases hb : b.name with
    | none =>
      unfold statAdd
      rw [ha, hb]
      simp [exceptIsOk]
    | some nb =>
      rw [ha] at hna
      rw [hb] at hnb
      simp only [Option.elim] at hna hnb
      unfold statAdd
      rw [ha, hb]
      have h1 : (a.pValues ++ b.pValues).length =
          (a.stats ++ b.stats).length := by simp [hpa, hpb]
      have h2 : (na ++ nb).length = (a.stats ++ b.stats).length := by
        simp [hna, hnb]
      simp [h1, h2, exceptIsOk]

/-- Witness for the amended C8 at two concrete named results. -/
theorem statAdd_succeeds_iff_both_named_witness :
    exceptIsOk (statAdd srNamedA srNamedB) = true ↔
      (srNamedA.name.isSome ∧ srNamedB.name.isSome) :=
  statAdd_succeeds_iff_both_named srNamedA srNamedB (by decide) (by decide)
    rfl rfl

/-- C4: `sample_size_necessary_under_cph` computes exactly the claimed
algebraic formula, and for any standard-normal quantile accurate to four
decimal places at 0.975 and 0.8 the worked scenario
`(power 0.8, ratio 1, p_exp 0.25, p_con 0.35, HR 0.7)` returns (421, 421). -/
theorem sample_size_formula_and_scenario (z : ℚ → ℚ)
    (power ratio p_exp p_con hr alpha : ℚ)
    (hpow : 0 < power ∧ power < 1) (hratio : 0 < ratio) (hhr : hr ≠ 1)
    (hpe : 0 < p_exp ∧ p_exp < 1) (hpc : 0 < p_con ∧ p_con < 1)
    (ha : 0 < alpha ∧ alpha < 1)
    (hz975 : 19599 / 10000 ≤ z (39 / 40) ∧ z (39 / 40) ≤ 196 / 100)
    (hz80 : 8416 / 10000 ≤ z (4 / 5) ∧ z (4 / 5) ≤ 8417 / 10000) :
    sample_size_necessary_under_cph z power ratio p_exp p_con hr alpha =
      (⌈1 / ratio * ((ratio * hr + 1) / (hr - 1)) ^ 2 *
          (z (1 - alpha / 2) + z power) ^ 2 * ratio /
          (ratio * p_exp + p_con)⌉,
       ⌈1 / ratio * ((ratio * hr + 1) / (hr - 1)) ^ 2 *
          (z (1 - alpha / 2) + z power) ^ 2 / (ratio * p_exp + p_con)⌉) ∧
    sample_size_necessary_under_cph z (4 / 5) 1 (1 / 4) (7 / 20) (7 / 10)
        (1 / 20) = (421, 421) := by
  constructor
  · rfl
  · have hs1 : 28015 / 10000 ≤ z (39 / 40) + z (4 / 5) := by
      linarith [hz975.1, hz80.1]
    have hs2 : z (39 / 40) + z (4 / 5) ≤ 28017 / 10000 := by
      linarith [hz975.2, hz80.2]
    have hq1 : (28015 / 10000 : ℚ) ^ 2 ≤ (z (39 / 40) + z (4 / 5)) ^ 2 := by
      nlinarith [hs1, hs2]
    have hq2 : (z (39 / 40) + z (4 / 5)) ^ 2 ≤ (28017 / 10000 : ℚ) ^ 2 := by
      nlinarith [hs1, hs2]
    norm_num at hq1 hq2
    unfold sample_size_necessary_under_cph cphM
    rw [show ((1 : ℚ) - 1 / 20 / 2) = 39 / 40 by norm_num]
    rw [Prod.mk.injEq]
    constructor
    · refine Int.ceil_eq_iff.mpr ⟨?_, ?_⟩
      · push_cast
        norm_num
        linarith [hq1, hq2]
      · push_cast
        norm_num
        linarith [hq1, hq2]
    · refine Int.ceil_eq_iff.mpr ⟨?_, ?_⟩
      · push_cast
        norm_num
        linarith [hq1, hq2]
      · push_cast
        norm_num
        linarith [hq1, hq2]

/-- Witness for C4 with a concrete quantile table. -/
theorem sample_size_formula_and_scenario_witness :
    sample_size_necessary_under_cph zWit (4 / 5) 1 (1 / 4) (7 / 20) (7 / 10)
        (1 / 20) = (421, 421) :=
  (sample_size_formula_and_scenario zWit (4 / 5) 1 (1 / 4) (7 / 20) (7 / 10)
    (1 / 20) (by norm_num) (by norm_num) (by norm_num) (by norm_num)
    (by norm_num) (by norm_num) (by norm_num [zWit]) (by norm_num [zWit])).2

lemma cdfLin_mono : Monotone cdfLin := by
  intro a b hab
  unfold cdfLin
  apply max_le_max le_rfl
  apply min_le_min le_rfl
  linarith

lemma cdfLin_range : ∀ x, 0 ≤ cdfLin x ∧ cdfLin x ≤ 1 := by
  intro x
  unfold cdfLin
  constructor
  · exact le_max_left 0 _
  · apply max_le
    · norm_num
    · exact min_le_left 1 _

/-- Counterexample for C9 as stated: with equal distances from 1 on opposite
sides (h1 = 1/2, h2 = 3/2), the CDF argument is strictly smaller at h2 (the
denominator k·HR + 1 is larger), so for the strictly increasing normal CDF
(here a monotone stand-in on the relevant interval) the power at h2 is
strictly below the power at h1, violating the claimed monotonicity. -/
theorem power_dist_monotonicity_counterexample :
    |(1 / 2 : ℚ) - 1| ≤ |(3 / 2 : ℚ) - 1| ∧
    powerArg sqrtAbs ppfZero 1 1 (1 / 2) (1 / 2) (3 / 2) (1 / 20) <
      powerArg sqrtAbs ppfZero 1 1 (1 / 2) (1 / 2) (1 / 2) (1 / 20) ∧
    power_under_cph sqrtAbs ppfZero cdfLin 1 1 (1 / 2) (1 / 2) (3 / 2)
        (1 / 20) <
      power_under_cph sqrtAbs ppfZero cdfLin 1 1 (1 / 2) (1 / 2) (1 / 2)
        (1 / 20) := by
  refine ⟨?_, ?_, ?_⟩
  · norm_num [abs_of_nonneg, abs_of_nonpos]
  · norm_num [powerArg, sqrtAbs, ppfZero, abs_of_nonneg, abs_of_nonpos]
  · norm_num [power_under_cph, powerArg, cdfLin, sqrtAbs, ppfZero,
      abs_of_nonneg, abs_of_nonpos, min_def, max_def]

/-- C9 (amended): `power_under_cph` is monotone in the hazard ratio's
distance from 1 among ratios on the same side of 1 (both at least 1 or both
at most 1, with positive arm sizes), for any monotone CDF with nonnegative
square root; and the returned power lies in [0, 1] whenever the CDF does.
Across sides of 1 the claimed monotonicity fails (see the counterexample). -/
theorem power_monotone_same_side (sq z cdf : ℚ → ℚ)
    (n_exp n_con p_exp p_con h1 h2 alpha : ℚ)
    (hmono : Monotone cdf) (hrange : ∀ x, 0 ≤ cdf x ∧ cdf x ≤ 1)
    (hsq : 0 ≤ sq (n_exp / n_con * (n_exp * p_exp + n_con * p_con)))
    (hne : 0 < n_exp) (hnc : 0 < n_con) (h1p : 0 < h1) (h2p : 0 < h2)
    (hside : (1 ≤ h1 ∧ 1 ≤ h2) ∨ (h1 ≤ 1 ∧ h2 ≤ 1))
    (hdist : |h1 - 1| ≤ |h2 - 1|) :
    power_under_cph sq z cdf n_exp n_con p_exp p_con h1 alpha ≤
      power_under_cph sq z cdf n_exp n_con p_exp p_con h2 alpha ∧
    0 ≤ power_under_cph sq z cdf n_exp n_con p_exp p_con h1 alpha ∧
    power_under_cph sq z cdf n_exp n_con p_exp p_con h1 alpha ≤ 1 := by
  refine ⟨?_, (hrange _).1, (hrange _).2⟩
  unfold power_under_cph powerArg
  apply hmono
  apply sub_le_sub_right
  set C := sq (n_exp / n_con * (n_exp * p_exp + n_con * p_con)) with hC
  set k := n_exp / n_con with hk
  have hkpos : 0 < k := div_pos hne hnc
  have hd1 : 0 < k * h1 + 1 := by nlinarith
  have hd2 : 0 < k * h2 + 1 := by nlinarith
  rw [div_le_div_iff₀ hd1 hd2]
  rcases hside with ⟨ha1, ha2⟩ | ⟨ha1, ha2⟩
  · rw [abs_of_nonneg (by linarith : (0 : ℚ) ≤ h1 - 1),
        abs_of_nonneg (by linarith : (0 : ℚ) ≤ h2 - 1)] at hdist ⊢
    nlinarith [mul_nonneg hsq (mul_nonneg
      (by linarith : (0 : ℚ) ≤ k + 1) (by linarith : (0 : ℚ) ≤ h2 - h1))]
  · rw [abs_of_nonpos (by linarith : h1 - 1 ≤ 0),
        abs_of_nonpos (by linarith : h2 - 1 ≤ 0)] at hdist ⊢
    nlinarith [mul_nonneg hsq (mul_nonneg
      (by linarith : (0 : ℚ) ≤ k + 1) (by linarith : (0 : ℚ) ≤ h1 - h2))]

/-- Witness for the amended C9: both ratios above 1. -/
theorem power_monotone_same_side_witness :
    power_under_cph sqrtAbs ppfZero cdfLin 1 1 (1 / 2) (1 / 2) (3 / 2)
        (1 / 20) ≤
      power_under_cph sqrtAbs ppfZero cdfLin 1 1 (1 / 2) (1 / 2) 2
        (1 / 20) ∧
    0 ≤ power_under_cph sqrtAbs ppfZero cdfLin 1 1 (1 / 2) (1 / 2) (3 / 2)
        (1 / 20) ∧
    power_under_cph sqrtAbs ppfZero cdfLin 1 1 (1 / 2) (1 / 2) (3 / 2)
        (1 / 20) ≤ 1 :=
  power_monotone_same_side sqrtAbs ppfZero cdfLin 1 1 (1 / 2) (1 / 2) (3 / 2)
    2 (1 / 20) cdfLin_mono cdfLin_range (abs_nonneg _) (by norm_num)
    (by norm_num) (by norm_num) (by norm_num)
    (Or.inl ⟨by norm_num, by norm_num⟩)
    (by norm_num [abs_of_nonneg, abs_of_nonpos])

end Lifelines
